import Mathlib

/-!
Shallow embedding of the cron engine in `cron.go` (package `cron`).

Modelling conventions, fixed once for the whole file:
  * Go `time.Time` is modelled as `Nat`; the value `0` plays the role of Go's
    zero time, so `t.IsZero()` becomes `t = 0`, `a.Before(b)` becomes `a < b`
    and `a.After(b)` becomes `b < a`.
  * the Go interface `Schedule` is identified with its only method `Next`,
    a function `Nat → Nat`; a schedule that can never fire returns `0`.
  * a Go `Job` value is an opaque handle, modelled as a `Nat`.
  * the `int32` entry-id counter of `Cron.nextId` is modelled as an `Int`
    kept inside `[-2^31, 2^31)` by explicit wrap-around arithmetic.
  * spawning `go c.runWithRecovery(...)` is modelled by emitting a
    `Dispatch` record (which entry, which job handle, which argument list);
    the panic/recover control flow of `runWithRecovery` itself is modelled
    with `Except`, a panic being an `Except.error` carrying the panic value.
-/

namespace Cron

/-- Model of the `Entry` struct of cron.go.  Go `time.Time` values are
`Nat`s here, `0` being Go's zero time.  The field `Schedule` stands for
the schedule's `Next` method.  Field defaults are Go's zero values, so a
literal that omits a field behaves like the corresponding Go composite
literal. -/
structure Entry where
  Schedule : Nat → Nat
  Next : Nat := 0
  Prev : Nat := 0
  Job : Nat := 0
  Id : Int := 0
  ArgLen : Int := 0
  Tag : String := ""
  Task : String := ""
  Params : String := ""

/-- Model of `byTime.Less` (cron.go lines 75-86): an entry with zero `Next`
is never less than anything; a real `Next` is less than a zero one; two real
times compare by `Before`. -/
def byTime.Less (i j : Entry) : Bool :=
  if i.Next = 0 then false
  else if j.Next = 0 then true
  else decide (i.Next < j.Next)

/-- Non-strict order induced by the comparator: `a` may stay before `b`
exactly when `b` is not strictly less than `a`.  This is the order a
comparator-based sort establishes on the output array. -/
def leRel (a b : Entry) : Prop := byTime.Less b a = false

instance : DecidableRel leRel :=
  fun a b => inferInstanceAs (Decidable (byTime.Less b a = false))

instance : IsTotal Entry leRel := by
  constructor
  intro a b
  simp only [leRel, byTime.Less]
  by_cases ha : a.Next = 0 <;> by_cases hb : b.Next = 0 <;>
    simp [ha, hb, decide_eq_false_iff_not] <;> exact Nat.le_total a.Next b.Next

instance : IsTrans Entry leRel := by
  constructor
  intro a b c hab hbc
  simp only [leRel, byTime.Less] at hab hbc ⊢
  by_cases ha : a.Next = 0 <;> by_cases hb : b.Next = 0 <;> by_cases hc : c.Next = 0 <;>
    simp [ha, hb, hc, decide_eq_false_iff_not] at hab hbc ⊢ <;> exact le_trans hab hbc

/-- Model of `sort.Sort(byTime(c.entries))`: a permutation of the input that
is sorted for the comparator (Go's sort is such a permutation; we realise it
with insertion sort, which the comparator's totality and transitivity make
correct). -/
def sortEntries (l : List Entry) : List Entry := l.insertionSort leRel

/-- Helper: the sorted order never puts a zero-`Next` entry before a
real-`Next` one. -/
theorem leRel_zero_imp {a b : Entry} (h : leRel a b) : a.Next = 0 → b.Next = 0 := by
  intro ha
  by_contra hb
  have hlt : byTime.Less b a = true := by simp [byTime.Less, hb, ha]
  have h' : byTime.Less b a = false := h
  rw [hlt] at h'
  exact Bool.noConfusion h'

/-- C1: the comparator returns false when the first entry has sentinel
`next_fire`; true when the first is real and the second sentinel; compares by
`<` on two real times; returns false on two sentinels; and consequently
sorting any list places every sentinel entry after every real-time entry. -/
theorem byTime_Less_spec :
    (∀ i j : Entry, i.Next = 0 → byTime.Less i j = false) ∧
    (∀ i j : Entry, i.Next ≠ 0 → j.Next = 0 → byTime.Less i j = true) ∧
    (∀ i j : Entry, i.Next ≠ 0 → j.Next ≠ 0 →
      (byTime.Less i j = true ↔ i.Next < j.Next)) ∧
    (∀ i j : Entry, i.Next = 0 → j.Next = 0 → byTime.Less i j = false) ∧
    (∀ l : List Entry,
      (sortEntries l).Pairwise (fun a b => a.Next = 0 → b.Next = 0)) := by
  refine ⟨?_, ?_, ?_, ?_, ?_⟩
  · intro i j hi; simp [byTime.Less, hi]
  · intro i j hi hj; simp [byTime.Less, hi, hj]
  · intro i j hi hj; simp [byTime.Less, hi, hj]
  · intro i j hi _; simp [byTime.Less, hi]
  · intro l
    have hs : (sortEntries l).Pairwise leRel := List.sorted_insertionSort leRel l
    exact hs.imp (fun h => leRel_zero_imp h)

/-- Sample entry with a real next-fire time. -/
def eReal : Entry := { Schedule := fun t => t + 1, Next := 5, Job := 1, Id := 0 }

/-- Sample entry with sentinel (zero) next-fire time. -/
def eZero : Entry := { Schedule := fun _ => 0, Next := 0, Job := 2, Id := 1 }

/-- Witness for C1 at concrete entries: a real-time entry is less than a
sentinel entry. -/
theorem byTime_Less_spec_witness :
    eReal.Next ≠ 0 ∧ eZero.Next = 0 ∧ byTime.Less eReal eZero = true :=
  ⟨by decide, by decide, byTime_Less_spec.2.1 eReal eZero (by decide) (by decide)⟩

/-- Value passed to a job at fire time: the entry id (an int32) or one of the
three auxiliary strings. -/
inductive Arg where
  | ofId (i : Int)
  | ofStr (s : String)
deriving DecidableEq

/-- Record of one `go c.runWithRecovery(e.Job, ...)` spawn in the timer case
of the loop (cron.go lines 255-266): which entry it was spawned for, the job
handle, and the argument list passed to `Run`. -/
structure Dispatch where
  eid : Int
  Job : Nat
  args : List Arg
deriving DecidableEq

/-- Argument selection of the dispatch switch (cron.go lines 255-266): for
`ArgLen` 0 to 4 the first that many of (Id, Tag, Task, Params); any other
`ArgLen` matches no case, so nothing is spawned (`none`). -/
def argsFor (e : Entry) : Option (List Arg) :=
  if e.ArgLen = 0 then some []
  else if e.ArgLen = 1 then some [.ofId e.Id]
  else if e.ArgLen = 2 then some [.ofId e.Id, .ofStr e.Tag]
  else if e.ArgLen = 3 then some [.ofId e.Id, .ofStr e.Tag, .ofStr e.Task]
  else if e.ArgLen = 4 then
    some [.ofId e.Id, .ofStr e.Tag, .ofStr e.Task, .ofStr e.Params]
  else none

/-- The spawn produced for a due entry, when its arity matches a case. -/
def dispOf (e : Entry) : Option Dispatch :=
  (argsFor e).map (fun a => { eid := e.Id, Job := e.Job, args := a })

/-- Loop-break condition of the timer scan (cron.go line 252):
`e.Next.After(now) || e.Next.IsZero()`. -/
def stopB (now : Nat) (e : Entry) : Bool :=
  decide (now < e.Next) || decide (e.Next = 0)

/-- An entry the scan processes: next-fire at or before now and not the
sentinel. -/
def dueB (now : Nat) (e : Entry) : Bool := ! stopB now e

/-- Mutation applied to a fired entry (cron.go lines 268-269):
`e.Prev = e.Next; e.Next = e.Schedule.Next(now)`. -/
def fire (now : Nat) (e : Entry) : Entry :=
  { e with Prev := e.Next, Next := e.Schedule now }

/-- Timer-case scan of the loop (cron.go lines 251-270): walk the entry list
in order, breaking at the first entry whose next time is after now or zero;
each entry before the break point is dispatched per its arity and has its
Prev/Next updated; everything from the break point on is left untouched. -/
def fireDue (now : Nat) : List Entry → List Dispatch × List Entry
  | [] => ([], [])
  | e :: rest =>
    if stopB now e then ([], e :: rest)
    else
      let r := fireDue now rest
      ((dispOf e).toList ++ r.1, fire now e :: r.2)

/-- Characterisation of the scan as takeWhile/dropWhile at the break point. -/
theorem fireDue_spec (now : Nat) (l : List Entry) :
    fireDue now l =
      ((l.takeWhile (dueB now)).filterMap dispOf,
       (l.takeWhile (dueB now)).map (fire now) ++ l.dropWhile (dueB now)) := by
  induction l with
  | nil => rfl
  | cons e rest ih =>
    by_cases h : stopB now e
    · simp [fireDue, h, List.takeWhile, List.dropWhile, dueB]
    · simp only [fireDue, h, if_false, ih, List.takeWhile, List.dropWhile, dueB,
        Bool.not_eq_true', eq_self_iff_true]
      have hd : (!stopB now e) = true := by simp [h]
      simp [hd, List.filterMap_cons]
      cases hdo : dispOf e <;> simp [hdo]

/-- Helper: on a list where the predicate only ever switches from true to
false (no true after a false, in the pairwise sense), takeWhile is filter and
everything in dropWhile fails the predicate. -/
theorem takeWhile_eq_filter_of_anti {α : Type} (p : α → Bool) :
    ∀ l : List α, l.Pairwise (fun a b => p b = true → p a = true) →
      l.takeWhile p = l.filter p ∧ ∀ x ∈ l.dropWhile p, p x = false := by
  intro l
  induction l with
  | nil => intro _; exact ⟨rfl, by intro x hx; cases hx⟩
  | cons a t ih =>
    intro hp
    rcases List.pairwise_cons.mp hp with ⟨ha, ht⟩
    by_cases hpa : p a = true
    · have := ih ht
      simp [List.takeWhile, List.dropWhile, List.filter, hpa, this.1]
      exact this.2
    · have hall : ∀ b ∈ t, p b = false := by
        intro b hb
        by_contra hbt
        exact hpa (ha b hb (by
          cases hpb : p b
          · exact absurd hpb hbt
          · rfl))
      have hfa : p a = false := by cases hpb : p a <;> simp_all
      constructor
      · simp [List.takeWhile, List.filter, hfa, List.filter_eq_nil_iff]
        intro b hb
        simp [hall b hb]
      · intro x hx
        simp [List.dropWhile, hfa] at hx
        rcases hx with rfl | hx
        · exact hfa
        · exact hall x hx

/-- Helper: along a comparator-sorted list, dueness only decreases: if a
later entry is due then so is any earlier one. -/
theorem leRel_due_anti (now : Nat) {a b : Entry} (h : leRel a b) :
    dueB now b = true → dueB now a = true := by
  intro hb
  simp only [dueB, stopB, Bool.not_eq_true', Bool.or_eq_false_iff,
    decide_eq_false_iff_not] at hb ⊢
  rcases hb with ⟨hb1, hb2⟩
  have hbz : b.Next ≠ 0 := hb2
  have haz : a.Next ≠ 0 := by
    intro haz
    exact hbz (leRel_zero_imp h haz)
  refine ⟨?_, haz⟩
  intro hna
  have h' : byTime.Less b a = false := h
  simp only [byTime.Less, hbz, if_false, haz, if_true] at h'
  simp only [if_neg hbz, if_neg haz, decide_eq_false_iff_not] at h'
  omega

/-- C2: on deadline elapsed, scanning the just-sorted registry dispatches
exactly the entries whose next-fire is at or before now (skipping none of
them, since they form a prefix of the sorted order), passing each job the
first arity-many of (Id, Tag, Task, Params); each such entry gets
Prev set to the old Next and Next recomputed from its schedule at now, and
every entry from the first late-or-sentinel one on is left untouched. -/
theorem run_due_processes_sorted (now : Nat) (l : List Entry)
    (hs : l.Pairwise leRel) :
    fireDue now l =
      ((l.filter (dueB now)).filterMap dispOf,
       l.map (fun e => if dueB now e then fire now e else e)) ∧
    (∀ e : Entry, 0 ≤ e.ArgLen → e.ArgLen ≤ 4 →
      argsFor e =
        some (([Arg.ofId e.Id, Arg.ofStr e.Tag, Arg.ofStr e.Task,
          Arg.ofStr e.Params]).take e.ArgLen.toNat)) := by
  constructor
  · have hanti : l.Pairwise (fun a b => dueB now b = true → dueB now a = true) :=
      hs.imp (fun h => leRel_due_anti now h)
    obtain ⟨htw, hdw⟩ := takeWhile_eq_filter_of_anti (dueB now) l hanti
    rw [fireDue_spec, htw]
    refine congrArg _ ?_
    rw [← htw]
    conv_rhs => rw [← List.takeWhile_append_dropWhile (p := dueB now) (l := l)]
    rw [List.map_append]
    refine congrArg₂ _ ?_ ?_
    · refine List.map_congr_left ?_
      intro x hx
      simp [List.mem_takeWhile_imp hx]
    · have : ∀ x ∈ l.dropWhile (dueB now),
          (if dueB now x = true then fire now x else x) = x := by
        intro x hx
        simp [hdw x hx]
      rw [List.map_congr_left this]
      exact (List.map_id' _).symm
  · intro e h0 h4
    interval_cases h : e.ArgLen <;> simp [argsFor, h]

/-- Sample sorted registry: one due entry, one future entry, one sentinel. -/
def lSorted : List Entry :=
  [{ Schedule := fun t => t + 10, Next := 2, Job := 1, Id := 0, ArgLen := 2,
     Tag := "a" },
   { Schedule := fun t => t + 1, Next := 9, Job := 2, Id := 1 },
   { Schedule := fun _ => 0, Next := 0, Job := 3, Id := 2 }]

/-- Witness for C2: the concrete sorted registry at now = 5 fires exactly its
first entry. -/
theorem run_due_processes_sorted_witness :
    lSorted.Pairwise leRel ∧
    (fireDue 5 lSorted =
      ((lSorted.filter (dueB 5)).filterMap dispOf,
       lSorted.map (fun e => if dueB 5 e then fire 5 e else e)) ∧
    (∀ e : Entry, 0 ≤ e.ArgLen → e.ArgLen ≤ 4 →
      argsFor e =
        some (([Arg.ofId e.Id, Arg.ofStr e.Tag, Arg.ofStr e.Task,
          Arg.ofStr e.Params]).take e.ArgLen.toNat))) :=
  ⟨by decide, run_due_processes_sorted 5 lSorted (by decide)⟩

/-- C10: an entry whose ArgLen falls outside 0..4 matches no case of the
dispatch switch, so no job spawn is produced for it, yet when due it still
has Prev set to the old Next and Next recomputed from its schedule, and the
scan continues past it. -/
theorem out_of_range_arity_advances_silently (now : Nat) (e : Entry)
    (rest : List Entry) (hrange : e.ArgLen < 0 ∨ 4 < e.ArgLen)
    (hdue : dueB now e = true) :
    argsFor e = none ∧
    fireDue now (e :: rest) =
      ((fireDue now rest).1, fire now e :: (fireDue now rest).2) := by
  have hargs : argsFor e = none := by
    have h0 : ¬ e.ArgLen = 0 := by omega
    have h1 : ¬ e.ArgLen = 1 := by omega
    have h2 : ¬ e.ArgLen = 2 := by omega
    have h3 : ¬ e.ArgLen = 3 := by omega
    have h4 : ¬ e.ArgLen = 4 := by omega
    simp [argsFor, h0, h1, h2, h3, h4]
  have hstop : stopB now e = false := by
    simp only [dueB, Bool.not_eq_true'] at hdue
    exact hdue
  refine ⟨hargs, ?_⟩
  simp [fireDue, hstop, dispOf, hargs]

/-- Sample entry with out-of-range arity. -/
def eBadArity : Entry :=
  { Schedule := fun t => t + 3, Next := 4, Job := 6, Id := 9, ArgLen := 7 }

/-- Witness for C10 at a concrete due entry with ArgLen 7. -/
theorem out_of_range_arity_advances_silently_witness :
    ((eBadArity.ArgLen < 0 ∨ 4 < eBadArity.ArgLen) ∧ dueB 5 eBadArity = true) ∧
    (argsFor eBadArity = none ∧
      fireDue 5 [eBadArity] =
        ((fireDue 5 ([] : List Entry)).1,
         fire 5 eBadArity :: (fireDue 5 ([] : List Entry)).2)) :=
  ⟨⟨by decide, by decide⟩,
   out_of_range_arity_advances_silently 5 eBadArity [] (by decide) (by decide)⟩

/-- Int32 wrap-around: reduce an integer into `[-2^31, 2^31)`, the behaviour
of Go `int32` addition overflow. -/
def wrap32 (n : Int) : Int := (n + 2 ^ 31) % 2 ^ 32 - 2 ^ 31

/-- Model of `Cron.nextId` (cron.go lines 415-419): return the current
counter and store the int32-incremented counter. -/
def nextId (c : Int) : Int × Int := (c, wrap32 (c + 1))

/-- Mutable state of a `Cron` value: the id counter, the registry, the
running flag, and (for stating Start idempotence) how many `run` goroutines
have been launched. -/
structure CronState where
  id : Int := 0
  entries : List Entry := []
  running : Bool := false
  loops : Nat := 0

/-- Model of `Cron.Start` (cron.go lines 195-201): no-op when already
running; otherwise set the flag and launch one `run` goroutine. -/
def Start (c : CronState) : CronState :=
  if c.running then c else { c with running := true, loops := c.loops + 1 }

/-- Model of `Cron.Stop` (cron.go lines 325-331): no-op when not running;
otherwise send one stop message (the Bool of the result) and clear the
flag. -/
def Stop (c : CronState) : CronState × Bool :=
  if ¬ c.running = true then (c, false) else ({ c with running := false }, true)

/-- C8: Start on a running engine changes nothing (in particular no second
loop goroutine and no change to the registry), and Stop on a stopped engine
changes nothing and sends no stop message. -/
theorem start_stop_idempotent (c : CronState) :
    (c.running = true → Start c = c) ∧
    (c.running = false → Stop c = (c, false)) := by
  constructor
  · intro h; simp [Start, h]
  · intro h; simp [Stop, h]

/-- Sample running engine state. -/
def cRunning : CronState := { id := 3, entries := [eReal], running := true, loops := 1 }

/-- Sample stopped engine state. -/
def cStopped : CronState := { id := 3, entries := [eReal], running := false, loops := 0 }

/-- Witness for C8 at concrete states. -/
theorem start_stop_idempotent_witness :
    (cRunning.running = true ∧ Start cRunning = cRunning) ∧
    (cStopped.running = false ∧ Stop cStopped = (cStopped, false)) :=
  ⟨⟨rfl, (start_stop_idempotent cRunning).1 rfl⟩,
   ⟨rfl, (start_stop_idempotent cStopped).2 rfl⟩⟩

/-- Model of `Cron.entrySnapshot` (cron.go lines 394-408): build a fresh
record per entry, copying `Schedule`, `Next`, `Prev`, `Job`, `Id`, `ArgLen`
and `Tag`.  The Go composite literal names no other field, so `Task` and
`Params` are left at their zero value `""` in the copy, exactly as in the
source. -/
def entrySnapshot (l : List Entry) : List Entry :=
  l.map (fun e =>
    { Schedule := e.Schedule, Next := e.Next, Prev := e.Prev, Job := e.Job,
      Id := e.Id, ArgLen := e.ArgLen, Tag := e.Tag })

/-- Sample fully-populated entry, the failing input for the snapshot claim. -/
def eFull : Entry :=
  { Schedule := fun t => t + 2, Next := 3, Prev := 1, Job := 9, Id := 7,
    ArgLen := 4, Tag := "tg", Task := "tk", Params := "pm" }

/-- C4 (code bug evidence): the snapshot copy of an entry whose Task and
Params are non-empty comes back with both fields empty, while Schedule,
Next, Prev, Job, Id, ArgLen and Tag are carried over; so the copy does not
carry the same Task and Params values as the live entry. -/
theorem entrySnapshot_drops_task_params :
    (entrySnapshot [eFull]).map (fun e => (e.Task, e.Params)) = [("", "")] ∧
    (eFull.Task, eFull.Params) = ("tk", "pm") ∧
    (entrySnapshot [eFull]).map (fun e => (e.Next, e.Prev, e.Job, e.Id, e.ArgLen, e.Tag)) =
      [(3, 1, 9, 7, 4, "tg")] ∧
    (entrySnapshot [eFull]).map (fun e => e.Schedule 0) = [eFull.Schedule 0] :=
  ⟨rfl, rfl, rfl, rfl⟩

/-- Destination a log line is written to by `Cron.logf` (cron.go lines
316-322). -/
inductive LogSink where
  | errorLog
  | defaultLog
deriving DecidableEq

/-- Model of `Cron.logf`: write to the configured error log when one is set,
else to the default logger. -/
def logf (hasErrorLog : Bool) : LogSink :=
  if hasErrorLog then .errorLog else .defaultLog

/-- Formatted report written by the recovery handler:
`"cron: panic running job: %v\n%s"` with the panic value and the captured
stack buffer. -/
def panicMsg (r : String) (stack : String) : String :=
  "cron: panic running job: " ++ r ++ "\n" ++ stack

/-- Model of `Cron.runWithRecovery` (cron.go lines 212-222).  Executing the
job is an `Except String Unit`, a panic being `Except.error` with the panic
value; `stack` is the buffer `runtime.Stack` fills.  The result is again an
`Except`: an `Except.error` result would mean a fault escaping the function,
and the payload lists the log lines written with their sinks. -/
def runWithRecovery (outcome : Except String Unit) (stack : String)
    (hasErrorLog : Bool) : Except String (List (LogSink × String)) :=
  match outcome with
  | .ok _ => .ok []
  | .error r => .ok [(logf hasErrorLog, panicMsg r stack)]

/-- C6: whatever the job execution does, runWithRecovery returns normally
(never re-raises); on a panic it writes exactly one formatted report, which
includes the stack backtrace, to the configured error log when set and to
the default logger otherwise; on normal completion it logs nothing. -/
theorem runWithRecovery_never_propagates :
    (∀ (outcome : Except String Unit) (stack : String) (flag : Bool),
      ∃ logs, runWithRecovery outcome stack flag = .ok logs) ∧
    (∀ (r stack : String) (flag : Bool),
      runWithRecovery (.error r) stack flag =
        .ok [(logf flag, "cron: panic running job: " ++ r ++ "\n" ++ stack)]) ∧
    (∀ (stack : String) (flag : Bool),
      runWithRecovery (.ok ()) stack flag = .ok []) ∧
    logf true = LogSink.errorLog ∧ logf false = LogSink.defaultLog := by
  refine ⟨?_, ?_, ?_, rfl, rfl⟩
  · intro outcome stack flag
    cases outcome with
    | ok u => exact ⟨[], rfl⟩
    | error r => exact ⟨[(logf flag, panicMsg r stack)], rfl⟩
  · intro r stack flag; rfl
  · intro stack flag; rfl

/-- Helper: a list has length at most zero exactly when it is empty (the
`len(c.entries) <= 0` guards of the remove paths). -/
theorem length_le_zero_iff {α : Type} (l : List α) : l.length ≤ 0 ↔ l = [] := by
  simp [Nat.le_zero, List.length_eq_zero]

/-- Model of the stopped path of `Cron.Remove` (cron.go lines 344-363):
no-op on an empty registry; otherwise a fresh slice is built, filled only
when the id is nonnegative, and assigned unconditionally — so a negative id
empties the registry. -/
def removeStopped (targetId : Int) (s : CronState) : CronState :=
  if s.entries.length ≤ 0 then s
  else if 0 ≤ targetId then
    { s with entries := s.entries.filter (fun v => v.Id != targetId) }
  else { s with entries := [] }

/-- Model of the remove-message case of the loop (cron.go lines 283-303):
no-op on an empty registry; nonnegative ids filter; -1 clears; -2 drops the
first entry; -3 drops the last; any other negative id does nothing. -/
def removeRunningMsg (targetId : Int) (s : CronState) : CronState :=
  if s.entries.length ≤ 0 then s
  else if 0 ≤ targetId then
    { s with entries := s.entries.filter (fun v => v.Id != targetId) }
  else if targetId = -1 then { s with entries := [] }
  else if targetId = -2 then { s with entries := s.entries.drop 1 }
  else if targetId = -3 then { s with entries := s.entries.dropLast }
  else s

/-- Sample one-entry stopped engine. -/
def sOne : CronState := { id := 1, entries := [{ Schedule := fun _ => 0, Job := 4, Id := 0 }] }

/-- C3 counterexample: on the stopped path, remove(-1) empties a registry
none of whose entries has identity -1, instead of leaving it unchanged. -/
theorem remove_nonmatching_not_noop :
    sOne.entries.map (fun e => e.Id) = [0] ∧
    ((-1 : Int) ∉ sOne.entries.map (fun e => e.Id)) ∧
    sOne.entries.length = 1 ∧
    (removeStopped (-1) sOne).entries = [] :=
  ⟨rfl, by decide, rfl, rfl⟩

/-- C3 as amended: for a nonnegative id both paths drop exactly the matching
entries and are no-ops when nothing matches (or the registry is empty); for
a negative id the stopped path clears a nonempty registry, while the running
path clears on -1, drops the first entry on -2, the last on -3, and does
nothing otherwise. -/
theorem remove_by_id_spec (s : CronState) :
    (∀ id : Int, 0 ≤ id →
      (removeStopped id s).entries = s.entries.filter (fun v => v.Id != id) ∧
      (removeRunningMsg id s).entries = s.entries.filter (fun v => v.Id != id)) ∧
    (∀ id : Int, 0 ≤ id → (∀ e ∈ s.entries, e.Id ≠ id) →
      (removeStopped id s).entries = s.entries ∧
      (removeRunningMsg id s).entries = s.entries) ∧
    (∀ id : Int, id < 0 → s.entries ≠ [] → (removeStopped id s).entries = []) ∧
    (s.entries ≠ [] →
      (removeRunningMsg (-1) s).entries = [] ∧
      (removeRunningMsg (-2) s).entries = s.entries.drop 1 ∧
      (removeRunningMsg (-3) s).entries = s.entries.dropLast) ∧
    (∀ id : Int, id < -3 → (removeRunningMsg id s).entries = s.entries) := by
  have hfilter : ∀ id : Int, (∀ e ∈ s.entries, e.Id ≠ id) →
      s.entries.filter (fun v => v.Id != id) = s.entries := by
    intro id h
    refine List.filter_eq_self.mpr ?_
    intro a ha
    simp [bne_iff_ne, h a ha]
  refine ⟨?_, ?_, ?_, ?_, ?_⟩
  · intro id hid
    by_cases he : s.entries = []
    · simp [removeStopped, removeRunningMsg, length_le_zero_iff, he]
    · simp [removeStopped, removeRunningMsg, length_le_zero_iff, he, hid]
  · intro id hid hno
    by_cases he : s.entries = []
    · simp [removeStopped, removeRunningMsg, length_le_zero_iff, he]
    · simp [removeStopped, removeRunningMsg, length_le_zero_iff, he, hid,
        hfilter id hno]
  · intro id hid he
    have : ¬ (0 ≤ id) := by omega
    simp [removeStopped, length_le_zero_iff, he, this]
  · intro he
    refine ⟨?_, ?_, ?_⟩ <;>
      simp [removeRunningMsg, length_le_zero_iff, he]
  · intro id hid
    by_cases he : s.entries = []
    · simp [removeRunningMsg, length_le_zero_iff, he]
    · have h0 : ¬ (0 ≤ id) := by omega
      have h1 : ¬ (id = -1) := by omega
      have h2 : ¬ (id = -2) := by omega
      have h3 : ¬ (id = -3) := by omega
      simp [removeRunningMsg, length_le_zero_iff, he, h0, h1, h2, h3]

/-- Witness for the amended C3: removing present and absent nonnegative ids
from a concrete two-entry registry. -/
def sTwo : CronState :=
  { id := 2,
    entries := [{ Schedule := fun _ => 0, Job := 4, Id := 0 },
                { Schedule := fun t => t, Job := 5, Id := 1 }] }

/-- Witness for C3 (amended) at a concrete registry. -/
theorem remove_by_id_spec_witness :
    ((0 : Int) ≤ 1 ∧
      (removeStopped 1 sTwo).entries = sTwo.entries.filter (fun v => v.Id != 1) ∧
      (removeRunningMsg 1 sTwo).entries = sTwo.entries.filter (fun v => v.Id != 1)) ∧
    ((0 : Int) ≤ 9 ∧ (∀ e ∈ sTwo.entries, e.Id ≠ 9) ∧
      (removeStopped 9 sTwo).entries = sTwo.entries ∧
      (removeRunningMsg 9 sTwo).entries = sTwo.entries) := by
  have h9 : ∀ e ∈ sTwo.entries, e.Id ≠ 9 := by decide
  refine ⟨⟨by decide, (remove_by_id_spec sTwo).1 1 (by decide)⟩,
         ⟨by decide, h9, (remove_by_id_spec sTwo).2.1 9 (by decide) h9⟩⟩

/-- Payload of an entry: every observable field except the timing fields
Next and Prev, which the running loop manages from the clock. -/
structure Payload where
  Schedule : Nat → Nat
  Job : Nat := 0
  Id : Int := 0
  ArgLen : Int := 0
  Tag : String := ""
  Task : String := ""
  Params : String := ""

/-- Projection of an entry to its payload. -/
def payload (e : Entry) : Payload :=
  { Schedule := e.Schedule, Job := e.Job, Id := e.Id, ArgLen := e.ArgLen,
    Tag := e.Tag, Task := e.Task, Params := e.Params }

/-- One mutation request issued by the public API: Schedule/AddJob, Remove,
RemoveAll, RemoveFirst or RemoveLast.  The add carries the entry as built by
`Cron.Schedule` before the running/stopped split (Id and Next still zero). -/
inductive Op where
  | add (entry : Entry)
  | remove (id : Int)
  | removeAll
  | removeFirst
  | removeLast

/-- Stopped path of `Cron.Schedule` (cron.go lines 170-173): assign the next
id and append. -/
def scheduleStopped (e : Entry) (s : CronState) : CronState :=
  { s with id := (nextId s.id).2,
           entries := s.entries ++ [{ e with Id := (nextId s.id).1 }] }

/-- Add-message case of the loop (cron.go lines 272-277): compute the
entry's next fire time from the current clock, assign the next id and
append. -/
def scheduleRunning (now : Nat) (e : Entry) (s : CronState) : CronState :=
  { s with id := (nextId s.id).2,
           entries := s.entries ++
             [{ e with Next := e.Schedule now, Id := (nextId s.id).1 }] }

/-- Stopped path of `Cron.RemoveAll` (cron.go lines 334-341). -/
def removeAllStopped (s : CronState) : CronState := { s with entries := [] }

/-- Stopped path of `Cron.RemoveFirst` (cron.go lines 366-377). -/
def removeFirstStopped (s : CronState) : CronState :=
  if s.entries.length ≤ 0 then s else { s with entries := s.entries.drop 1 }

/-- Stopped path of `Cron.RemoveLast` (cron.go lines 380-391). -/
def removeLastStopped (s : CronState) : CronState :=
  if s.entries.length ≤ 0 then s else { s with entries := s.entries.dropLast }

/-- Direct-mutation interpretation of one request, as executed while the
engine is stopped. -/
def applyStopped : Op → CronState → CronState
  | .add e, s => scheduleStopped e s
  | .remove id, s => removeStopped id s
  | .removeAll, s => removeAllStopped s
  | .removeFirst, s => removeFirstStopped s
  | .removeLast, s => removeLastStopped s

/-- Message interpretation of one request, as drained by the running loop:
adds go through the add channel (stamped with the clock `now`), the remove
family goes through the remove channel with ids -1, -2, -3 as sentinels. -/
def applyRunning (now : Nat) : Op → CronState → CronState
  | .add e, s => scheduleRunning now e s
  | .remove id, s => removeRunningMsg id s
  | .removeAll, s => removeRunningMsg (-1) s
  | .removeFirst, s => removeRunningMsg (-2) s
  | .removeLast, s => removeRunningMsg (-3) s

/-- Run a request sequence through the stopped engine. -/
def runStopped : List Op → CronState → CronState
  | [], s => s
  | op :: ops, s => runStopped ops (applyStopped op s)

/-- Run a request sequence through the running engine's message path, each
message stamped with the clock value at drain time. -/
def runRunning : List Op → List Nat → CronState → CronState
  | [], _, s => s
  | op :: ops, nows, s => runRunning ops nows.tail (applyRunning (nows.headD 0) op s)

/-- Requests on which the two paths can agree: remove-by-identity only with
a nonnegative identity. -/
def goodOp : Op → Prop
  | .remove id => 0 ≤ id
  | _ => True

/-- Sample initial engine state. -/
def initState : CronState := {}

/-- C5 counterexample: add two jobs, then call remove(-2).  The stopped
path clears the registry; the running path drops only the first entry. -/
theorem message_path_counterexample :
    (runStopped [Op.add { Schedule := fun _ => 0, Job := 1 },
                 Op.add { Schedule := fun _ => 0, Job := 2 },
                 Op.remove (-2)] initState).entries.length = 0 ∧
    (runRunning [Op.add { Schedule := fun _ => 0, Job := 1 },
                 Op.add { Schedule := fun _ => 0, Job := 2 },
                 Op.remove (-2)] [0, 0, 0] initState).entries.length = 1 ∧
    (runRunning [Op.add { Schedule := fun _ => 0, Job := 1 },
                 Op.add { Schedule := fun _ => 0, Job := 2 },
                 Op.remove (-2)] [0, 0, 0] initState).entries.map (fun e => e.Id) =
      [1] :=
  ⟨rfl, rfl, rfl⟩

/-- Helper: filtering by id commutes with the payload projection. -/
theorem map_payload_filter (i : Int) : ∀ l : List Entry,
    (l.filter (fun v => v.Id != i)).map payload
      = (l.map payload).filter (fun p => p.Id != i)
  | [] => rfl
  | a :: t => by
    have ih := map_payload_filter i t
    by_cases h : (a.Id != i) = true
    · simp [List.filter_cons, payload, h, ih]
    · simp only [Bool.not_eq_true] at h
      simp [List.filter_cons, payload, h, ih]

/-- Helper: one good request preserves agreement of counter and payloads
between the two paths. -/
theorem apply_payload_eq (op : Op) (hg : goodOp op) (now : Nat)
    (s₁ s₂ : CronState) (hid : s₁.id = s₂.id)
    (hp : s₁.entries.map payload = s₂.entries.map payload) :
    (applyRunning now op s₁).id = (applyStopped op s₂).id ∧
    (applyRunning now op s₁).entries.map payload
      = (applyStopped op s₂).entries.map payload := by
  have hlen : s₁.entries.length = s₂.entries.length := by
    have := congrArg List.length hp
    simpa using this
  cases op with
  | add e =>
    refine ⟨by simp [applyRunning, applyStopped, scheduleRunning,
      scheduleStopped, nextId, hid], ?_⟩
    simp [applyRunning, applyStopped, scheduleRunning, scheduleStopped,
      nextId, hp, payload, hid]
  | remove id =>
    have hid0 : (0 : Int) ≤ id := hg
    by_cases he : s₂.entries = []
    · have he1 : s₁.entries = [] := by
        rw [← List.length_eq_zero, hlen, he]; rfl
      simp [applyRunning, applyStopped, removeRunningMsg, removeStopped,
        length_le_zero_iff, he, he1, hid, hp]
    · have he1 : s₁.entries ≠ [] := by
        intro h
        exact he (by rw [← List.length_eq_zero, ← hlen, h]; rfl)
      simp [applyRunning, applyStopped, removeRunningMsg, removeStopped,
        length_le_zero_iff, he, he1, hid0, hid, map_payload_filter, hp]
  | removeAll =>
    by_cases he : s₂.entries = []
    · have he1 : s₁.entries = [] := by
        rw [← List.length_eq_zero, hlen, he]; rfl
      simp [applyRunning, applyStopped, removeRunningMsg, removeAllStopped,
        length_le_zero_iff, he, he1, hid]
    · have he1 : s₁.entries ≠ [] := by
        intro h
        exact he (by rw [← List.length_eq_zero, ← hlen, h]; rfl)
      simp [applyRunning, applyStopped, removeRunningMsg, removeAllStopped,
        length_le_zero_iff, he, he1, hid]
  | removeFirst =>
    by_cases he : s₂.entries = []
    · have he1 : s₁.entries = [] := by
        rw [← List.length_eq_zero, hlen, he]; rfl
      simp [applyRunning, applyStopped, removeRunningMsg, removeFirstStopped,
        length_le_zero_iff, he, he1, hid, hp]
    · have he1 : s₁.entries ≠ [] := by
        intro h
        exact he (by rw [← List.length_eq_zero, ← hlen, h]; rfl)
      refine ⟨by simp [applyRunning, applyStopped, removeRunningMsg,
        removeFirstStopped, length_le_zero_iff, he, he1, hid], ?_⟩
      simp only [applyRunning, applyStopped, removeRunningMsg,
        removeFirstStopped, length_le_zero_iff]
      simp [he, he1, List.map_drop, hp]
  | removeLast =>
    by_cases he : s₂.entries = []
    · have he1 : s₁.entries = [] := by
        rw [← List.length_eq_zero, hlen, he]; rfl
      simp [applyRunning, applyStopped, removeRunningMsg, removeLastStopped,
        length_le_zero_iff, he, he1, hid, hp]
    · have he1 : s₁.entries ≠ [] := by
        intro h
        exact he (by rw [← List.length_eq_zero, ← hlen, h]; rfl)
      refine ⟨by simp [applyRunning, applyStopped, removeRunningMsg,
        removeLastStopped, length_le_zero_iff, he, he1, hid], ?_⟩
      simp only [applyRunning, applyStopped, removeRunningMsg,
        removeLastStopped, length_le_zero_iff]
      simp [he, he1, List.map_dropLast, hp]

/-- Helper: good request sequences keep the two paths in lockstep from any
pair of agreeing states. -/
theorem run_payload_eq : ∀ (ops : List Op), (∀ op ∈ ops, goodOp op) →
    ∀ (nows : List Nat) (s₁ s₂ : CronState), s₁.id = s₂.id →
      s₁.entries.map payload = s₂.entries.map payload →
      (runRunning ops nows s₁).id = (runStopped ops s₂).id ∧
      (runRunning ops nows s₁).entries.map payload
        = (runStopped ops s₂).entries.map payload
  | [], _, _, _, _, hid, hp => ⟨hid, hp⟩
  | op :: ops, hg, nows, s₁, s₂, hid, hp => by
    have hstep := apply_payload_eq op (hg op (List.mem_cons_self op ops))
      (nows.headD 0) s₁ s₂ hid hp
    exact run_payload_eq ops (fun o ho => hg o (List.mem_cons_of_mem op ho))
      nows.tail _ _ hstep.1 hstep.2

/-- C5 as amended: for every request sequence whose remove-by-identity
requests use only nonnegative identities, draining the sequence through the
running loop's channels yields a registry with the same entries, in the same
order, as direct mutation while stopped — agreeing on every field except
the loop-managed timing fields Next and Prev — and the same id counter. -/
theorem message_path_matches_direct (ops : List Op) (nows : List Nat)
    (s : CronState) (hg : ∀ op ∈ ops, goodOp op) :
    (runRunning ops nows s).entries.map payload
      = (runStopped ops s).entries.map payload ∧
    (runRunning ops nows s).id = (runStopped ops s).id :=
  ⟨(run_payload_eq ops hg nows s s rfl rfl).2,
   (run_payload_eq ops hg nows s s rfl rfl).1⟩

/-- Sample good request sequence. -/
def opsW : List Op :=
  [Op.add { Schedule := fun t => t + 1, Job := 3, ArgLen := 1, Tag := "w" },
   Op.add { Schedule := fun t => t + 2, Job := 4 },
   Op.remove 0, Op.removeLast]

/-- Witness for C5 (amended) on a concrete request sequence. -/
theorem message_path_matches_direct_witness :
    (∀ op ∈ opsW, goodOp op) ∧
    ((runRunning opsW [7, 8, 9, 10] initState).entries.map payload
        = (runStopped opsW initState).entries.map payload ∧
     (runRunning opsW [7, 8, 9, 10] initState).id
        = (runStopped opsW initState).id) := by
  have hg : ∀ op ∈ opsW, goodOp op := by
    intro op hop
    fin_cases hop <;> simp [goodOp]
  exact ⟨hg, message_path_matches_direct opsW [7, 8, 9, 10] initState hg⟩

/-- Counter value after n registrations, each assigning via `nextId`
(whether performed by the stopped path of `Cron.Schedule` or by the
add-message case of the loop — both call `c.nextId()` once). -/
def counterAfter : Nat → Int
  | 0 => 0
  | n + 1 => (nextId (counterAfter n)).2

/-- Helper: the counter after n registrations is n reduced into int32. -/
theorem counterAfter_eq (n : Nat) : counterAfter n = wrap32 n := by
  induction n with
  | zero => decide
  | succ n ih =>
    simp only [counterAfter, nextId, ih, wrap32]
    push_cast
    omega

/-- C9 counterexample: at the 2^31-th registration the int32 id counter
wraps, so the identity assigned there is smaller than the one before it and
the sequence of identities is not monotonically increasing. -/
theorem id_counter_wraps :
    counterAfter (2 ^ 31 - 1) = 2 ^ 31 - 1 ∧
    counterAfter (2 ^ 31) = -(2 ^ 31) ∧
    counterAfter (2 ^ 31) < counterAfter (2 ^ 31 - 1) ∧
    (nextId (counterAfter (2 ^ 31 - 1))).2 = counterAfter (2 ^ 31) := by
  simp only [counterAfter_eq, nextId, wrap32]
  refine ⟨by decide, by decide, by decide, by decide⟩

/-- C9 as amended: identities are consecutive values of the wrapping int32
counter, handed out by `nextId` on both registration paths; within the first
2^31 registrations of an engine's lifetime they are strictly increasing and
pairwise distinct (never reused), the counter first wrapping at registration
2^31. -/
theorem id_monotone_within_int32 (i j : Nat) (hij : i < j) (hj : j < 2 ^ 31) :
    counterAfter i < counterAfter j ∧ counterAfter i ≠ counterAfter j ∧
    (nextId (counterAfter i)).1 = counterAfter i ∧
    (∀ (e : Entry) (s : CronState),
      (scheduleStopped e s).entries.map (fun v => v.Id)
        = s.entries.map (fun v => v.Id) ++ [s.id] ∧
      (scheduleStopped e s).id = wrap32 (s.id + 1)) ∧
    (∀ (now : Nat) (e : Entry) (s : CronState),
      (scheduleRunning now e s).entries.map (fun v => v.Id)
        = s.entries.map (fun v => v.Id) ++ [s.id] ∧
      (scheduleRunning now e s).id = wrap32 (s.id + 1)) := by
  have wi : wrap32 i = i := by unfold wrap32; omega
  have wj : wrap32 j = j := by unfold wrap32; omega
  refine ⟨?_, ?_, rfl, ?_, ?_⟩
  · rw [counterAfter_eq, counterAfter_eq, wi, wj]
    exact_mod_cast hij
  · rw [counterAfter_eq, counterAfter_eq, wi, wj]
    intro h
    have : i = j := by exact_mod_cast h
    omega
  · intro e s; exact ⟨by simp [scheduleStopped, nextId], rfl⟩
  · intro now e s; exact ⟨by simp [scheduleRunning, nextId], rfl⟩

/-- Witness for C9 (amended) at registrations 1 and 2. -/
theorem id_monotone_within_int32_witness :
    (1 < 2 ∧ 2 < 2 ^ 31) ∧
    (counterAfter 1 < counterAfter 2 ∧ counterAfter 1 ≠ counterAfter 2) := by
  have h := id_monotone_within_int32 1 2 (by decide) (by norm_num)
  exact ⟨⟨by decide, by norm_num⟩, h.1, h.2.1⟩

/-- One pass of the outer loop reaching the timer case (cron.go lines
233-270): the registry is sorted at the top of the loop, then the timer
fires and the due-entry scan runs. -/
def loopStep (now : Nat) (l : List Entry) : List Dispatch × List Entry :=
  fireDue now (sortEntries l)

/-- Arbitrarily many loop passes, one per timer firing, collecting every
spawn. -/
def loopIter : List Nat → List Entry → List Dispatch × List Entry
  | [], l => ([], l)
  | now :: nows, l =>
    ((loopStep now l).1 ++ (loopIter nows (loopStep now l).2).1,
     (loopIter nows (loopStep now l).2).2)

/-- Helper: entries the scan deems due have a nonzero next-fire time. -/
theorem dueB_nonzero {now : Nat} {x : Entry} (hx : dueB now x = true) :
    x.Next ≠ 0 := by
  simp only [dueB, stopB, Bool.not_eq_true', Bool.or_eq_false_iff,
    decide_eq_false_iff_not] at hx
  exact hx.2

/-- Helper: one loop pass keeps an id-unique sentinel entry in the registry
untouched, keeps the no-other-entry-with-its-id property, and spawns nothing
for its id. -/
theorem loopStep_never_inv (now : Nat) (l : List Entry) (e : Entry)
    (hmem : e ∈ l)
    (huniq : ∀ x ∈ l, x.Id = e.Id → x.Next = 0 ∧ x.Schedule = fun _ => 0) :
    e ∈ (loopStep now l).2 ∧
    (∀ x ∈ (loopStep now l).2, x.Id = e.Id →
      x.Next = 0 ∧ x.Schedule = fun _ => 0) ∧
    (∀ d ∈ (loopStep now l).1, d.eid ≠ e.Id) := by
  have hperm := List.perm_insertionSort leRel l
  have hmem' : e ∈ sortEntries l := hperm.symm.subset hmem
  have huniq' : ∀ x ∈ sortEntries l, x.Id = e.Id →
      x.Next = 0 ∧ x.Schedule = fun _ => 0 :=
    fun x hx => huniq x (hperm.subset hx)
  have hez : e.Next = 0 := (huniq e hmem rfl).1
  have hsplit : (sortEntries l).takeWhile (dueB now)
      ++ (sortEntries l).dropWhile (dueB now) = sortEntries l :=
    List.takeWhile_append_dropWhile (dueB now) (sortEntries l)
  simp only [loopStep, fireDue_spec]
  refine ⟨?_, ?_, ?_⟩
  · have : e ∈ (sortEntries l).takeWhile (dueB now)
        ∨ e ∈ (sortEntries l).dropWhile (dueB now) := by
      rw [← List.mem_append, hsplit]; exact hmem'
    rcases this with h | h
    · exact absurd hez (dueB_nonzero (List.mem_takeWhile_imp h))
    · exact List.mem_append_right _ h
  · intro x hx hid
    rcases List.mem_append.mp hx with h | h
    · rcases List.mem_map.mp h with ⟨y, hy, rfl⟩
      have hid' : y.Id = e.Id := by simpa [fire] using hid
      have hyz : y.Next = 0 :=
        (huniq' y (by rw [← hsplit]; exact List.mem_append_left _ hy) hid').1
      exact absurd hyz (dueB_nonzero (List.mem_takeWhile_imp hy))
    · exact huniq' x (by rw [← hsplit]; exact List.mem_append_right _ h) hid
  · intro d hd
    rcases List.mem_filterMap.mp hd with ⟨y, hy, hdy⟩
    have heid : d.eid = y.Id := by
      simp only [dispOf, Option.map_eq_some'] at hdy
      rcases hdy with ⟨a, _, rfl⟩
      rfl
    intro hcontra
    have hid' : y.Id = e.Id := by rw [← heid, hcontra]
    have hyz : y.Next = 0 :=
      (huniq' y (by rw [← hsplit]; exact List.mem_append_left _ hy) hid').1
    exact absurd hyz (dueB_nonzero (List.mem_takeWhile_imp hy))

/-- C7: an entry whose schedule always answers the sentinel and whose
next-fire is sentinel (as the loop header makes it) is never dispatched in
any number of loop passes, and it stays in the registry throughout — there
is no automatic removal.  The uniqueness hypothesis says no other registry
entry shares its identity, which the engine's id assignment guarantees. -/
theorem never_schedule_never_dispatched (nows : List Nat) (l : List Entry)
    (e : Entry) (hmem : e ∈ l) (hz : e.Next = 0)
    (hsched : e.Schedule = fun _ => 0)
    (huniq : ∀ x ∈ l, x.Id = e.Id → x.Next = 0 ∧ x.Schedule = fun _ => 0) :
    e ∈ (loopIter nows l).2 ∧ ∀ d ∈ (loopIter nows l).1, d.eid ≠ e.Id := by
  induction nows generalizing l with
  | nil => exact ⟨hmem, by intro d hd; cases hd⟩
  | cons now nows ih =>
    obtain ⟨h1, h2, h3⟩ := loopStep_never_inv now l e hmem huniq
    obtain ⟨ih1, ih2⟩ := ih (loopStep now l).2 h1 h2
    refine ⟨ih1, ?_⟩
    intro d hd
    simp only [loopIter] at hd ⊢
    rcases List.mem_append.mp hd with h | h
    · exact h3 d h
    · exact ih2 d h

/-- Sample entry with an unsatisfiable schedule. -/
def eNever : Entry := { Schedule := fun _ => 0, Next := 0, Job := 5, Id := 3 }

/-- Witness for C7: over three timer firings of a registry holding the
unsatisfiable entry and a live one, the unsatisfiable entry survives and is
never dispatched. -/
theorem never_schedule_never_dispatched_witness :
    (eNever ∈ [eNever, eReal] ∧ eNever.Next = 0 ∧
      eNever.Schedule = (fun _ => 0) ∧
      (∀ x ∈ [eNever, eReal], x.Id = eNever.Id →
        x.Next = 0 ∧ x.Schedule = fun _ => 0)) ∧
    (eNever ∈ (loopIter [1, 6, 11] [eNever, eReal]).2 ∧
      ∀ d ∈ (loopIter [1, 6, 11] [eNever, eReal]).1, d.eid ≠ eNever.Id) := by
  have hmem : eNever ∈ [eNever, eReal] := by simp
  have huniq : ∀ x ∈ [eNever, eReal], x.Id = eNever.Id →
      x.Next = 0 ∧ x.Schedule = fun _ => 0 := by
    intro x hx hid
    rcases List.mem_cons.mp hx with rfl | hx
    · exact ⟨rfl, rfl⟩
    · rcases List.mem_cons.mp hx with rfl | hx
      · exact absurd hid (by decide)
      · cases hx
  exact ⟨⟨hmem, rfl, rfl, huniq⟩,
    never_schedule_never_dispatched [1, 6, 11] [eNever, eReal] eNever hmem
      rfl rfl huniq⟩

end Cron
